import Mathlib

/-
Verification development for the tsforest repository.

The repository (src/tsforest/forecaster_lightgbm.py and src/tsforest/trend.py)
is orchestration glue around external modeling libraries (lightgbm, fbprophet,
stldecompose).  We embed the orchestration logic shallowly:

* pandas rows become total functions from column names (String) to rationals;
* the trained boosted model is an abstract function from a feature row to a
  value (its internals live in the lightgbm library);
* numpy window functions (getattr(np, name)) become an abstract interpretation
  String -> List Rat -> Rat;
* python dicts of parameters become functions String -> Option values;
* python list/array indexing, including negative indices and slices, is
  modelled exactly (an out-of-bounds access is a fault, i.e. Option.none).

Floats are modelled as rationals: every operation the orchestration code
performs on target values is ring arithmetic (scale, shift, append), so the
field of rationals is a faithful stand-in.
-/

namespace TSForest

/-- A pandas row: a total assignment of values to column names.  Columns that
were never written hold the row's base content. -/
abbrev Row := String → ℚ

/-- Assignment `row[k] = v` on a pandas row. -/
def updateRow (row : Row) (k : String) (v : ℚ) : Row :=
  fun k2 => if k2 = k then v else row k2

/-- The f-string `f"lag_{lag}"` from `LightGBMForecaster._predict`. -/
def lagName (lag : Nat) : String := "lag_" ++ toString lag

/-- The f-string `f"{window_func}_{window}"` from `LightGBMForecaster._predict`. -/
def rwName (wf : String) (w : Nat) : String := wf ++ "_" ++ toString w

/-- Python list/ndarray indexing `y[i]` with `i : Int`: a negative index is
resolved by adding the length; any index that still falls outside the array
raises IndexError, modelled as `none`. -/
def pyGet (y : List ℚ) (i : Int) : Option ℚ :=
  let j : Int := if i < 0 then (y.length : Int) + i else i
  if 0 ≤ j ∧ j < (y.length : Int) then some (y.getD j.toNat 0) else none

/-- Python slice `y[-w:]`: for `w = 0` the slice `y[-0:] = y[0:]` is the whole
array, otherwise it is the suffix starting at (clamped) position `len - w`.
Slicing never raises. -/
def pySliceLast (y : List ℚ) (w : Nat) : List ℚ :=
  if w = 0 then y else y.drop (y.length - w)

/-- The `L`-th most recent element of a buffer (the element python's `y[-L]`
denotes when `1 ≤ L ≤ length`). -/
def nthMostRecent (b : List ℚ) (L : Nat) : ℚ := b.getD (b.length - L) 0

/-- The last `w` elements of a buffer. -/
def lastN (b : List ℚ) (w : Nat) : List ℚ := b.drop (b.length - w)

/-- The instance state of `LightGBMForecaster` that `_predict`/`predict`
consult (set up by the base class, which is out of scope here): the feature
kinds, the autoregressive configuration, the response-scaling constants, the
detrending flag, and the stored training/validation targets. -/
structure LGBMForecaster where
  features : List String
  lags : List Nat
  window_functions : List String
  window_sizes : List Nat
  input_features : List String
  response_scaling : Bool
  y_std : ℚ
  y_mean : ℚ
  detrend : Bool
  y_train : List ℚ
  valid_period_given : Bool
  y_valid : List ℚ

/-- `y = np.concatenate([y_train, y_valid])` with
`y_valid = self.valid_features.y.values if self.valid_period is not None
else np.array([])` (forecaster_lightgbm.py lines 70-73). -/
def initialHistory (f : LGBMForecaster) : List ℚ :=
  f.y_train ++ (if f.valid_period_given then f.y_valid else [])

/-- The ambient objects of a `predict` call: the forecaster state, the
interpretation of `getattr(np, window_func)`, the trained booster
(`model.predict` on a single-row dataframe, abstract), the predicted trend
(`trend_dataframe.loc[idx, "trend"]`, abstract), and the base content of each
row of `predict_features` as prepared by `_prepare_predict_features`. -/
structure PredictCtx where
  f : LGBMForecaster
  npFun : String → List ℚ → ℚ
  model : Row → ℚ
  trend : Nat → ℚ
  baseRows : Nat → Row

/-- The inner loop `for lag in self.lags:
`predict_features.loc[idx, f"lag_{lag}"] = y[-lag]`.  A faulting index access
aborts the whole call. -/
def applyLags (lagList : List Nat) (y : List ℚ) (row : Row) : Option Row :=
  match lagList with
  | [] => some row
  | lag :: rest =>
    match pyGet y (-(lag : Int)) with
    | none => none
    | some v => applyLags rest y (updateRow row (lagName lag) v)

/-- The inner loop `for window in self.window_sizes:
`predict_features.loc[idx, f"{window_func}_{window}"] =
getattr(np, window_func)(y[-window:])` for one fixed `window_func`. -/
def applyRWInner (np2 : String → List ℚ → ℚ) (wf : String) (ws : List Nat)
    (y : List ℚ) (row : Row) : Row :=
  match ws with
  | [] => row
  | w :: rest => applyRWInner np2 wf rest y (updateRow row (rwName wf w) (np2 wf (pySliceLast y w)))

/-- The nested loops `for window_func in self.window_functions: for window in
self.window_sizes: ...`. -/
def applyRW (np2 : String → List ℚ → ℚ) (wfs : List String) (ws : List Nat)
    (y : List ℚ) (row : Row) : Row :=
  match wfs with
  | [] => row
  | wf :: rest => applyRW np2 rest ws y (applyRWInner np2 wf ws y row)

/-- Row `idx` of `predict_features` after the feature-writing part of one
iteration of the loop in `_predict`: lag features first (guarded by
`"lag" in self.features`), then rolling-window features (guarded by
`"rw" in self.features`). -/
def buildRow (c : PredictCtx) (idx : Nat) (y : List ℚ) : Option Row :=
  match (if "lag" ∈ c.f.features then applyLags c.f.lags y (c.baseRows idx)
         else some (c.baseRows idx)) with
  | none => none
  | some r1 =>
    some (if "rw" ∈ c.f.features
          then applyRW c.npFun c.f.window_functions c.f.window_sizes y r1
          else r1)

/-- The in-place post-processing of `y_pred` inside the loop of `_predict`:
`if self.response_scaling: y_pred *= self.y_std; y_pred += self.y_mean` then
`if self.detrend: y_pred += trend_dataframe.loc[idx, "trend"]`. -/
def scaleAndDetrend (f : LGBMForecaster) (raw t : ℚ) : ℚ :=
  let a := if f.response_scaling then raw * f.y_std + f.y_mean else raw
  if f.detrend then a + t else a

/-- What one iteration of the loop in `_predict` produces: the feature row it
supplied, the raw model output it appended to `prediction` (via
`prediction.append(y_pred.copy())`, taken before the in-place updates), and
the post-processed value it appended to `y`. -/
structure StepOut where
  row : Row
  raw : ℚ
  appended : ℚ

def defaultStepOut : StepOut := ⟨fun _ => 0, 0, 0⟩

/-- One iteration of the loop `for idx in range(predict_features.shape[0])`
in `_predict`: write the autoregressive features into row `idx`, run the
booster on the row restricted to `self.input_features`, record the raw
output, post-process it in place, and append the result to `y`. -/
def restrictRow (cols : List String) (row : Row) : Row :=
  fun k => if k ∈ cols then row k else 0

def predictStep (c : PredictCtx) (idx : Nat) (y : List ℚ) : Option (StepOut × List ℚ) :=
  match buildRow c idx y with
  | none => none
  | some row =>
    let raw := c.model (restrictRow c.f.input_features row)
    let app := scaleAndDetrend c.f raw (c.trend idx)
    some (⟨row, raw, app⟩, y ++ [app])

/-- The loop of `_predict`, running `steps` iterations starting at row `idx`
with history buffer `y`; returns the per-step records and the final buffer. -/
def predictLoop (c : PredictCtx) : Nat → Nat → List ℚ → Option (List StepOut × List ℚ)
  | _, 0, y => some ([], y)
  | idx, steps + 1, y =>
    match predictStep c idx y with
    | none => none
    | some (out, y2) =>
      match predictLoop c (idx + 1) steps y2 with
      | none => none
      | some (outs, yfin) => some (out :: outs, yfin)

/-- The list `np.asarray(prediction).ravel()` that `predict` receives: in the
autoregressive path the per-step raw outputs of `_predict`, otherwise the
vectorized `self.model.predict(predict_features.loc[:, self.input_features])`. -/
def rawPredictions (c : PredictCtx) (n : Nat) : Option (List ℚ) :=
  if "lag" ∈ c.f.features ∨ "rw" ∈ c.f.features then
    match predictLoop c 0 n (initialHistory c.f) with
    | none => none
    | some (outs, _) => some (outs.map StepOut.raw)
  else
    some ((List.range n).map (fun i => c.model (restrictRow c.f.input_features (c.baseRows i))))

/-- Elementwise `prediction += trend_dataframe.trend.values`, row `j + i` of
the trend for element `i` of the list (`j = 0` at top level). -/
def addTrendFrom (t : Nat → ℚ) : Nat → List ℚ → List ℚ
  | _, [] => []
  | j, v :: rest => (v + t j) :: addTrendFrom t (j + 1) rest

/-- `prediction[zero_response_mask] = 0` with
`zero_response_mask = predict_features["zero_response"] == 1`:
`z i` is whether row `j + i` is masked. -/
def zeroMaskFrom (z : Nat → Bool) : Nat → List ℚ → List ℚ
  | _, [] => []
  | j, v :: rest => (if z j then 0 else v) :: zeroMaskFrom z (j + 1) rest

/-- `LightGBMForecaster.predict` on `n` rows.  `zeroResp` is `some z` when the
prepared features contain a `zero_response` column with mask `z`, `none`
otherwise. -/
def predictMethod (c : PredictCtx) (n : Nat) (zeroResp : Option (Nat → Bool)) :
    Option (List ℚ) :=
  match rawPredictions c n with
  | none => none
  | some p0 =>
    let p1 := if c.f.response_scaling
              then p0.map (fun v => v * c.f.y_std + c.f.y_mean) else p0
    let p2 := if c.f.detrend then addTrendFrom c.trend 0 p1 else p1
    let p3 := match zeroResp with
      | some z => zeroMaskFrom z 0 p2
      | none => p2
    some p3

/-! ### Parameter-dictionary assembly in `LightGBMForecaster.fit` -/

/-- The python dict merge `{**a, **b}`: keys of `b` override keys of `a`,
keys present in only one dict are kept. -/
def mergeDicts {α : Type} (a b : String → Option α) : String → Option α :=
  fun k => match b k with
    | some v => some v
    | none => a k

/-- `del d[k]`. -/
def eraseKey {α : Type} (d : String → Option α) (k : String) : String → Option α :=
  fun k2 => if k2 = k then none else d k2

/-- The keyword arguments `fit` passes to `lgb.train`. -/
structure TrainingParams (α : Type) where
  train_set_passed : Bool
  valid_sets_passed : Bool
  verbose_eval_set : Bool
  params : String → Option α

/-- Lines 45-53 of forecaster_lightgbm.py:
`model_params = {**lgbm_parameters, **self.model_params}`, then either attach
the validation set or (`elif "early_stopping_rounds" in model_params`) delete
that key, and finally `training_params["params"] = model_params`. -/
def fitAssemble {α : Type} (defaults model_params : String → Option α)
    (valid_period_given : Bool) : TrainingParams α :=
  let mp := mergeDicts defaults model_params
  if valid_period_given then
    { train_set_passed := true, valid_sets_passed := true,
      verbose_eval_set := true, params := mp }
  else
    let mp2 := if (mp "early_stopping_rounds").isSome
               then eraseKey mp "early_stopping_rounds" else mp
    { train_set_passed := true, valid_sets_passed := false,
      verbose_eval_set := false, params := mp2 }

/-! ### `LightGBMForecaster._cast_dataframe` -/

/-- A pandas dataframe: its column names and, for each name, the column's
values. -/
structure PandasDF where
  cols : List String
  colVal : String → List ℚ

/-- The `lgb.Dataset(**dataset_params)` constructed by `_cast_dataframe`. -/
structure LGBDataset where
  data : List (String × List ℚ)
  categorical_feature : List String
  free_raw_data : Bool
  weight : Option (List ℚ)
  label : Option (List ℚ)

/-- `LightGBMForecaster._cast_dataframe` (forecaster_lightgbm.py lines 17-38):
data is `features_dataframe.loc[:, self.input_features]`, weight is attached
when a `weight` column exists, label when a column named `self.target`
exists. -/
def castDataframe (input_features : List String) (target : String)
    (df : PandasDF) (categorical_features : List String) : LGBDataset :=
  { data := input_features.map (fun cname => (cname, df.colVal cname)),
    categorical_feature := categorical_features,
    free_raw_data := false,
    weight := if "weight" ∈ df.cols then some (df.colVal "weight") else none,
    label := if target ∈ df.cols then some (df.colVal target) else none }

/-! ### `TrendEstimator` (trend.py) -/

/-- `TrendEstimator.fit` (trend.py lines 108-116) calls `train_model`, which
always constructs and fits a Prophet model; the `backend` attribute is never
consulted, so the library used is `"prophet"` for every backend value. -/
def trendEstimatorFitLibraryUsed (backend : String) : String :=
  let _ := backend
  "prophet"

/-- `TrendEstimator.predict` (trend.py lines 118-129): the only branch is
`if self.backend == "prophet"`, which builds the trend dataframe from the
fitted Prophet model's trend (abstracted as `prophetTrend`); for any other
backend value `trend_dataframe` is never assigned and the `return` raises
UnboundLocalError, modelled as `none`. -/
def trendEstimatorPredict (backend : String) (prophetTrend : ℚ → ℚ)
    (period : List ℚ) : Option (List (ℚ × ℚ)) :=
  if backend = "prophet" then
    some (period.map (fun d => (d, prophetTrend d)))
  else none

/-! ### Concrete instances used by counterexamples and witnesses -/

/-- Concrete default-parameter dict for the C5 counterexample: empty. -/
def cexDefaults : String → Option Nat := fun _ => none

/-- Concrete instance `model_params` dict for the C5 counterexample: it holds
only the key `early_stopping_rounds`. -/
def cexModelParams : String → Option Nat :=
  fun k => if k = "early_stopping_rounds" then some 10 else none

/-- A concrete forecaster with one lag feature, training targets `[3, 5]`, no
validation period, no scaling and no detrending. -/
def wLagF : LGBMForecaster :=
  { features := ["lag"], lags := [1], window_functions := [], window_sizes := [],
    input_features := ["lag_1"], response_scaling := false, y_std := 1, y_mean := 0,
    detrend := false, y_train := [3, 5], valid_period_given := false, y_valid := [] }

/-- A concrete prediction context over `wLagF`: the booster returns its
`lag_1` input plus one. -/
def wLagCtx : PredictCtx :=
  { f := wLagF, npFun := fun _ _ => 0, model := fun row => row "lag_1" + 1,
    trend := fun _ => 0, baseRows := fun _ _ => 0 }

/-- The step records of one loop iteration over `wLagCtx`. -/
def wLagOuts : List StepOut :=
  ((predictLoop wLagCtx 0 1 (initialHistory wLagF)).getD ([], [])).1

/-- The final history buffer of one loop iteration over `wLagCtx`. -/
def wLagYfin : List ℚ :=
  ((predictLoop wLagCtx 0 1 (initialHistory wLagF)).getD ([], [])).2

/-- A concrete forecaster with one rolling-window feature (`mean_2`), training
targets `[1, 2, 3]` plus a one-element validation period `[9]`. -/
def wRwF : LGBMForecaster :=
  { features := ["rw"], lags := [], window_functions := ["mean"], window_sizes := [2],
    input_features := ["mean_2"], response_scaling := false, y_std := 1, y_mean := 0,
    detrend := false, y_train := [1, 2, 3], valid_period_given := true, y_valid := [9] }

/-- A concrete prediction context over `wRwF`: the window functions are
interpreted as list sums and the booster returns its `mean_2` input. -/
def wRwCtx : PredictCtx :=
  { f := wRwF, npFun := fun _ l => l.foldl (fun a b => a + b) 0,
    model := fun row => row "mean_2", trend := fun _ => 0, baseRows := fun _ _ => 0 }

/-- The step records of two loop iterations over `wRwCtx`. -/
def wRwOuts : List StepOut :=
  ((predictLoop wRwCtx 0 2 (initialHistory wRwF)).getD ([], [])).1

/-- The final history buffer of two loop iterations over `wRwCtx`. -/
def wRwYfin : List ℚ :=
  ((predictLoop wRwCtx 0 2 (initialHistory wRwF)).getD ([], [])).2

/-- A concrete forecaster with detrending and response scaling enabled, one
lag feature, training targets `[4]`. -/
def wDetF : LGBMForecaster :=
  { features := ["lag"], lags := [1], window_functions := [], window_sizes := [],
    input_features := ["lag_1"], response_scaling := true, y_std := 2, y_mean := 1,
    detrend := true, y_train := [4], valid_period_given := false, y_valid := [] }

/-- A concrete prediction context over `wDetF` with trend constantly 10: the
booster echoes its `lag_1` input. -/
def wDetCtx : PredictCtx :=
  { f := wDetF, npFun := fun _ _ => 0, model := fun row => row "lag_1",
    trend := fun _ => 10, baseRows := fun _ _ => 0 }

/-- The step records of two loop iterations over `wDetCtx`. -/
def wDetOuts : List StepOut :=
  ((predictLoop wDetCtx 0 2 (initialHistory wDetF)).getD ([], [])).1

/-- The final history buffer of two loop iterations over `wDetCtx`. -/
def wDetYfin : List ℚ :=
  ((predictLoop wDetCtx 0 2 (initialHistory wDetF)).getD ([], [])).2

/-- The raw prediction list of a two-step call over `wDetCtx`. -/
def wDetRaws : List ℚ := (rawPredictions wDetCtx 2).getD []

/-- The result of `predict` over `wDetCtx` with no `zero_response` column. -/
def wDetRes : List ℚ := (predictMethod wDetCtx 2 none).getD []

/-- A zero-response mask that zeroes row 0 only. -/
def wMask : Nat → Bool := fun i => i = 0

/-- The result of `predict` over `wDetCtx` with the `zero_response` mask
`wMask`. -/
def wMaskRes : List ℚ := (predictMethod wDetCtx 2 (some wMask)).getD []

/-! ## Helper lemmas about python indexing and the feature-writing loops -/

lemma pyGet_neg (y : List ℚ) (L : Nat) (h1 : 1 ≤ L) (h2 : L ≤ y.length) :
    pyGet y (-(L : Int)) = some (nthMostRecent y L) := by
  have hneg : -(L : Int) < 0 := by omega
  have hc0 : (0 : Int) ≤ (y.length : Int) + -(L : Int) := by omega
  have hc1 : (y.length : Int) + -(L : Int) < (y.length : Int) := by omega
  have hJ : ((y.length : Int) + -(L : Int)).toNat = y.length - L := by omega
  simp only [pyGet, hneg, if_true, hc0, hc1, and_self, nthMostRecent, hJ]

lemma pyGet_neg_isSome (y : List ℚ) (L : Nat) (h1 : 1 ≤ L) (h2 : L ≤ y.length) :
    (pyGet y (-(L : Int))).isSome = true := by
  rw [pyGet_neg y L h1 h2]
  rfl

lemma pyGet_neg_some (y : List ℚ) (L : Nat) (v : ℚ) (h1 : 1 ≤ L)
    (hv : pyGet y (-(L : Int)) = some v) : v = nthMostRecent y L := by
  have hneg : -(L : Int) < 0 := by omega
  by_cases h2 : L ≤ y.length
  · rw [pyGet_neg y L h1 h2] at hv
    exact (Option.some_inj.mp hv).symm
  · exfalso
    have hc0 : ¬ ((0 : Int) ≤ (y.length : Int) + -(L : Int)) := by omega
    simp only [pyGet, hneg, if_true, hc0, false_and, if_false] at hv
    exact Option.noConfusion hv

lemma pySliceLast_eq_lastN (y : List ℚ) (w : Nat) (h1 : 1 ≤ w) :
    pySliceLast y w = lastN y w := by
  have hw : ¬ (w = 0) := by omega
  simp only [pySliceLast, lastN, hw, if_false]

lemma lastN_length (y : List ℚ) (w : Nat) (h2 : w ≤ y.length) :
    (lastN y w).length = w := by
  simp only [lastN, List.length_drop]
  omega

lemma applyLags_isSome (lagList : List Nat) (y : List ℚ) (row : Row)
    (h : ∀ L ∈ lagList, (pyGet y (-(L : Int))).isSome = true) :
    (applyLags lagList y row).isSome = true := by
  induction lagList generalizing row with
  | nil => rfl
  | cons a rest ih =>
      have ha := h a (List.mem_cons_self a rest)
      cases hp : pyGet y (-(a : Int)) with
      | none => rw [hp] at ha; exact absurd ha (by simp)
      | some v =>
          simp only [applyLags, hp]
          exact ih (updateRow row (lagName a) v)
            (fun L hL => h L (List.mem_cons_of_mem a hL))

lemma applyLags_preserve (lagList : List Nat) (y : List ℚ) (row out : Row)
    (k : String) (hsome : applyLags lagList y row = some out)
    (h : ∀ L ∈ lagList, lagName L ≠ k) :
    out k = row k := by
  induction lagList generalizing row with
  | nil =>
      simp only [applyLags, Option.some_inj] at hsome
      rw [← hsome]
  | cons a rest ih =>
      simp only [applyLags] at hsome
      cases hp : pyGet y (-(a : Int)) with
      | none => rw [hp] at hsome; exact absurd hsome (by simp)
      | some v =>
          rw [hp] at hsome
          have hrec := ih (updateRow row (lagName a) v) hsome
            (fun L hL => h L (List.mem_cons_of_mem a hL))
          rw [hrec]
          have hne : ¬ (k = lagName a) :=
            fun he => (h a (List.mem_cons_self a rest)) he.symm
          simp only [updateRow, hne, if_false]

lemma applyLags_value (lagList : List Nat) (y : List ℚ) (L : Nat) :
    ∀ (row out : Row), applyLags lagList y row = some out → L ∈ lagList →
    (∀ L2 ∈ lagList, lagName L2 = lagName L → L2 = L) →
    pyGet y (-(L : Int)) = some (out (lagName L)) := by
  induction lagList with
  | nil => intro row out _ hL _; exact absurd hL (List.not_mem_nil L)
  | cons a rest ih =>
      intro row out hsome hL huniq
      simp only [applyLags] at hsome
      cases hp : pyGet y (-(a : Int)) with
      | none => rw [hp] at hsome; exact absurd hsome (by simp)
      | some v =>
          rw [hp] at hsome
          by_cases hmem : ∃ L2 ∈ rest, lagName L2 = lagName L
          · obtain ⟨L2, hL2r, hL2n⟩ := hmem
            have hL2L : L2 = L := huniq L2 (List.mem_cons_of_mem a hL2r) hL2n
            subst hL2L
            exact ih (updateRow row (lagName a) v) out hsome hL2r
              (fun L3 h3 hn => huniq L3 (List.mem_cons_of_mem a h3) hn)
          · push_neg at hmem
            have hLa : L = a := by
              rcases List.mem_cons.mp hL with he | he
              · exact he
              · exact absurd rfl (hmem L he)
            subst hLa
            have hpres := applyLags_preserve rest y (updateRow row (lagName L) v)
              out (lagName L) hsome (fun L2 h2 => hmem L2 h2)
            rw [hpres]
            simp only [updateRow, if_pos rfl]
            exact hp

lemma applyRWInner_preserve (np2 : String → List ℚ → ℚ) (wf : String)
    (ws : List Nat) (y : List ℚ) (row : Row) (k : String)
    (h : ∀ w ∈ ws, rwName wf w ≠ k) :
    applyRWInner np2 wf ws y row k = row k := by
  induction ws generalizing row with
  | nil => rfl
  | cons a rest ih =>
      simp only [applyRWInner]
      rw [ih (updateRow row (rwName wf a) (np2 wf (pySliceLast y a)))
        (fun w hw => h w (List.mem_cons_of_mem a hw))]
      have hne : ¬ (k = rwName wf a) :=
        fun he => (h a (List.mem_cons_self a rest)) he.symm
      simp only [updateRow, hne, if_false]

lemma applyRWInner_value (np2 : String → List ℚ → ℚ) (wf : String)
    (ws : List Nat) (y : List ℚ) (w : Nat) :
    ∀ (row : Row), w ∈ ws →
    (∀ w2 ∈ ws, rwName wf w2 = rwName wf w → w2 = w) →
    applyRWInner np2 wf ws y row (rwName wf w) = np2 wf (pySliceLast y w) := by
  induction ws with
  | nil => intro row hw _; exact absurd hw (List.not_mem_nil w)
  | cons a rest ih =>
      intro row hw huniq
      simp only [applyRWInner]
      by_cases hmem : ∃ w2 ∈ rest, rwName wf w2 = rwName wf w
      · obtain ⟨w2, hw2r, hw2n⟩ := hmem
        have hw2w : w2 = w := huniq w2 (List.mem_cons_of_mem a hw2r) hw2n
        subst hw2w
        exact ih (updateRow row (rwName wf a) (np2 wf (pySliceLast y a))) hw2r
          (fun w3 h3 hn => huniq w3 (List.mem_cons_of_mem a h3) hn)
      · push_neg at hmem
        have hwa : w = a := by
          rcases List.mem_cons.mp hw with he | he
          · exact he
          · exact absurd rfl (hmem w he)
        subst hwa
        rw [applyRWInner_preserve np2 wf rest y _ (rwName wf w)
          (fun w2 h2 => hmem w2 h2)]
        simp [updateRow]

lemma applyRW_preserve (np2 : String → List ℚ → ℚ) (wfs : List String)
    (ws : List Nat) (y : List ℚ) (row : Row) (k : String)
    (h : ∀ wf ∈ wfs, ∀ w ∈ ws, rwName wf w ≠ k) :
    applyRW np2 wfs ws y row k = row k := by
  induction wfs generalizing row with
  | nil => rfl
  | cons a rest ih =>
      simp only [applyRW]
      rw [ih (applyRWInner np2 a ws y row)
        (fun wf hwf w hw => h wf (List.mem_cons_of_mem a hwf) w hw)]
      exact applyRWInner_preserve np2 a ws y row k
        (fun w hw => h a (List.mem_cons_self a rest) w hw)

lemma applyRW_value (np2 : String → List ℚ → ℚ) (wfs : List String)
    (ws : List Nat) (y : List ℚ) (wf : String) (w : Nat) :
    ∀ (row : Row), wf ∈ wfs → w ∈ ws →
    (∀ wf2 ∈ wfs, ∀ w2 ∈ ws, rwName wf2 w2 = rwName wf w → wf2 = wf ∧ w2 = w) →
    applyRW np2 wfs ws y row (rwName wf w) = np2 wf (pySliceLast y w) := by
  induction wfs with
  | nil => intro row hwf _ _; exact absurd hwf (List.not_mem_nil wf)
  | cons a rest ih =>
      intro row hwf hw huniq
      simp only [applyRW]
      by_cases hmem : ∃ wf2 ∈ rest, ∃ w2 ∈ ws, rwName wf2 w2 = rwName wf w
      · obtain ⟨wf2, hwf2r, w2, hw2s, hn⟩ := hmem
        have heq := huniq wf2 (List.mem_cons_of_mem a hwf2r) w2 hw2s hn
        have hwfr : wf ∈ rest := heq.1 ▸ hwf2r
        exact ih (applyRWInner np2 a ws y row) hwfr hw
          (fun wf3 h3 w3 hw3 hn3 => huniq wf3 (List.mem_cons_of_mem a h3) w3 hw3 hn3)
      · push_neg at hmem
        have hwfa : wf = a := by
          rcases List.mem_cons.mp hwf with he | he
          · exact he
          · exact absurd rfl (hmem wf he w hw)
        subst hwfa
        rw [applyRW_preserve np2 rest ws y _ (rwName wf w)
          (fun wf2 h2 w2 hw2 => hmem wf2 h2 w2 hw2)]
        exact applyRWInner_value np2 wf ws y w row hw
          (fun w2 hw2 hn2 => (huniq wf (List.mem_cons_self wf rest) w2 hw2 hn2).2)

lemma buildRow_inv (c : PredictCtx) (idx : Nat) (y : List ℚ) (row : Row)
    (h : buildRow c idx y = some row) :
    ∃ r1, (if "lag" ∈ c.f.features then applyLags c.f.lags y (c.baseRows idx)
           else some (c.baseRows idx)) = some r1 ∧
      row = (if "rw" ∈ c.f.features
             then applyRW c.npFun c.f.window_functions c.f.window_sizes y r1
             else r1) := by
  simp only [buildRow] at h
  cases hl : (if "lag" ∈ c.f.features then applyLags c.f.lags y (c.baseRows idx)
              else some (c.baseRows idx)) with
  | none => rw [hl] at h; exact absurd h (by simp)
  | some r1 =>
      rw [hl] at h
      exact ⟨r1, rfl, (Option.some_inj.mp h).symm⟩

lemma predictStep_inv (c : PredictCtx) (idx : Nat) (y : List ℚ)
    (out : StepOut) (y2 : List ℚ) (h : predictStep c idx y = some (out, y2)) :
    buildRow c idx y = some out.row ∧
    out.raw = c.model (restrictRow c.f.input_features out.row) ∧
    out.appended = scaleAndDetrend c.f out.raw (c.trend idx) ∧
    y2 = y ++ [out.appended] := by
  cases hb : buildRow c idx y with
  | none =>
      simp only [predictStep, hb] at h
      exact Option.noConfusion h
  | some row =>
      simp only [predictStep, hb, Option.some_inj, Prod.mk.injEq] at h
      obtain ⟨hout, hy2⟩ := h
      subst hout
      exact ⟨rfl, rfl, rfl, hy2.symm⟩

lemma predictStep_snd (c : PredictCtx) (idx : Nat) (y : List ℚ)
    (out : StepOut) (y2 : List ℚ) (h : predictStep c idx y = some (out, y2)) :
    y2 = y ++ [out.appended] :=
  (predictStep_inv c idx y out y2 h).2.2.2

/-- The loop invariant of `_predict`: when the loop completes, it produced one
step record per iteration, the final buffer is the initial buffer extended by
the appended values in order, and step `i` ran on the buffer consisting of the
initial history plus the values appended by the previous `i` steps. -/
lemma predictLoop_spec (c : PredictCtx) (steps : Nat) :
    ∀ (idx0 : Nat) (y0 : List ℚ) (outs : List StepOut) (yfin : List ℚ),
      predictLoop c idx0 steps y0 = some (outs, yfin) →
      outs.length = steps ∧
      yfin = y0 ++ outs.map StepOut.appended ∧
      ∀ i, (h : i < outs.length) →
        predictStep c (idx0 + i) (y0 ++ (outs.take i).map StepOut.appended)
          = some (outs[i],
              (y0 ++ (outs.take i).map StepOut.appended) ++ [outs[i].appended]) := by
  induction steps with
  | zero =>
      intro idx0 y0 outs yfin h
      simp only [predictLoop, Option.some_inj, Prod.mk.injEq] at h
      obtain ⟨ho, hy⟩ := h
      subst ho; subst hy
      refine ⟨rfl, by simp, ?_⟩
      intro i hi
      exact absurd hi (by simp)
  | succ s ih =>
      intro idx0 y0 outs yfin h
      cases hstep : predictStep c idx0 y0 with
      | none =>
          simp only [predictLoop, hstep] at h
          exact Option.noConfusion h
      | some oy =>
          obtain ⟨out, y2⟩ := oy
          simp only [predictLoop, hstep] at h
          cases hrec : predictLoop c (idx0 + 1) s y2 with
          | none =>
              simp only [hrec] at h
              exact Option.noConfusion h
          | some oyf =>
              obtain ⟨outs2, yfin2⟩ := oyf
              simp only [hrec, Option.some_inj, Prod.mk.injEq] at h
              obtain ⟨ho, hy⟩ := h
              subst ho; subst hy
              have hy2 : y2 = y0 ++ [out.appended] := predictStep_snd c idx0 y0 out y2 hstep
              obtain ⟨ihlen, ihfin, ihsteps⟩ := ih (idx0 + 1) y2 outs2 yfin2 hrec
              refine ⟨by simp [ihlen], ?_, ?_⟩
              · rw [ihfin, hy2]
                simp [List.append_assoc]
              · intro i hi
                cases i with
                | zero =>
                    simp only [List.take_zero, List.map_nil, List.append_nil,
                      Nat.add_zero, List.getElem_cons_zero]
                    rw [hstep, hy2]
                | succ j =>
                    have hj : j < outs2.length := by
                      simp only [List.length_cons] at hi
                      omega
                    have := ihsteps j hj
                    simp only [List.take_succ_cons, List.map_cons,
                      List.getElem_cons_succ]
                    rw [show idx0 + (j + 1) = idx0 + 1 + j by omega]
                    rw [show y0 ++ (out.appended :: (outs2.take j).map StepOut.appended)
                          = y2 ++ (outs2.take j).map StepOut.appended by
                        rw [hy2]; simp]
                    exact this

/-- Totality of the loop of `_predict`: when every configured lag is between 1
and the length of the starting buffer, every iteration's index accesses are in
bounds and the loop completes. -/
lemma predictLoop_total (c : PredictCtx) (steps : Nat) :
    ∀ (idx0 : Nat) (y0 : List ℚ),
      (∀ L ∈ c.f.lags, 1 ≤ L ∧ L ≤ y0.length) →
      (predictLoop c idx0 steps y0).isSome = true := by
  induction steps with
  | zero => intro idx0 y0 _; rfl
  | succ s ih =>
      intro idx0 y0 hb
      have hstep : (predictStep c idx0 y0).isSome = true := by
        simp only [predictStep]
        have hbr : (buildRow c idx0 y0).isSome = true := by
          simp only [buildRow]
          by_cases hlag : "lag" ∈ c.f.features
          · rw [if_pos hlag]
            have hsome := applyLags_isSome c.f.lags y0 (c.baseRows idx0)
              (fun L hL => pyGet_neg_isSome y0 L (hb L hL).1 (hb L hL).2)
            cases ha : applyLags c.f.lags y0 (c.baseRows idx0) with
            | none => rw [ha] at hsome; exact absurd hsome (by simp)
            | some r1 => rfl
          · rw [if_neg hlag]
            rfl
        cases hbc : buildRow c idx0 y0 with
        | none => rw [hbc] at hbr; exact absurd hbr (by simp)
        | some row => rfl
      rw [Option.isSome_iff_exists] at hstep
      obtain ⟨⟨out, y2⟩, hsome⟩ := hstep
      have hy2 : y2 = y0 ++ [out.appended] := predictStep_snd c idx0 y0 out y2 hsome
      have hrec := ih (idx0 + 1) y2
        (fun L hL => ⟨(hb L hL).1, by
          rw [hy2]
          simp only [List.length_append, List.length_cons, List.length_nil]
          have := (hb L hL).2
          omega⟩)
      simp only [predictLoop, hsome]
      cases hr : predictLoop c (idx0 + 1) s y2 with
      | none => rw [hr] at hrec; exact absurd hrec (by simp)
      | some oyf => rfl

lemma getD_eq_getElem {α : Type} (l : List α) (i : Nat) (d : α)
    (h : i < l.length) : l.getD i d = l[i] := by
  simp [List.getD_eq_getElem?_getD, List.getElem?_eq_getElem h]

lemma length_addTrendFrom (t : Nat → ℚ) (j : Nat) (l : List ℚ) :
    (addTrendFrom t j l).length = l.length := by
  induction l generalizing j with
  | nil => rfl
  | cons v rest ih => simp [addTrendFrom, ih]

lemma getD_addTrendFrom (t : Nat → ℚ) (l : List ℚ) :
    ∀ (j i : Nat), i < l.length →
      (addTrendFrom t j l).getD i 0 = l.getD i 0 + t (j + i) := by
  induction l with
  | nil => intro j i hi; exact absurd hi (by simp)
  | cons v rest ih =>
      intro j i hi
      cases i with
      | zero => simp [addTrendFrom]
      | succ i2 =>
          have hi2 : i2 < rest.length := by rw [List.length_cons] at hi; omega
          simp only [addTrendFrom, List.getD_cons_succ]
          rw [ih (j + 1) i2 hi2]
          have harg : j + 1 + i2 = j + (i2 + 1) := by omega
          rw [harg]

lemma length_zeroMaskFrom (z : Nat → Bool) (j : Nat) (l : List ℚ) :
    (zeroMaskFrom z j l).length = l.length := by
  induction l generalizing j with
  | nil => rfl
  | cons v rest ih => simp [zeroMaskFrom, ih]

lemma getD_zeroMaskFrom (z : Nat → Bool) (l : List ℚ) :
    ∀ (j i : Nat), i < l.length →
      (zeroMaskFrom z j l).getD i 0 = (if z (j + i) then 0 else l.getD i 0) := by
  induction l with
  | nil => intro j i hi; exact absurd hi (by simp)
  | cons v rest ih =>
      intro j i hi
      cases i with
      | zero => simp [zeroMaskFrom]
      | succ i2 =>
          have hi2 : i2 < rest.length := by rw [List.length_cons] at hi; omega
          simp only [zeroMaskFrom, List.getD_cons_succ]
          rw [ih (j + 1) i2 hi2]
          have : j + 1 + i2 = j + (i2 + 1) := by omega
          rw [this]

lemma getD_map_scale (s m : ℚ) (l : List ℚ) :
    ∀ (i : Nat), i < l.length →
      (l.map (fun v => v * s + m)).getD i 0 = l.getD i 0 * s + m := by
  induction l with
  | nil => intro i hi; exact absurd hi (by simp)
  | cons v rest ih =>
      intro i hi
      cases i with
      | zero => simp
      | succ i2 =>
          have hi2 : i2 < rest.length := by
            rw [List.length_cons] at hi
            omega
          simp only [List.map_cons, List.getD_cons_succ]
          exact ih i2 hi2

/-! ## Claim theorems: parameter assembly, dataframe casting, trend backends -/

/-- Claim C5, counterexample: with no validation period and an instance
`model_params` containing only `early_stopping_rounds`, that key is present in
the merged dictionary (value 10) but absent from the parameter dictionary that
`fit` passes to `lgb.train`, so the passed dictionary is not the merge with
every key present in only one dictionary kept. -/
theorem C5_counterexample :
    (fitAssemble cexDefaults cexModelParams false).params "early_stopping_rounds" = none ∧
    mergeDicts cexDefaults cexModelParams "early_stopping_rounds" = some 10 :=
  ⟨rfl, rfl⟩

/-- Claim C5 (amended): the parameter dictionary `fit` passes to training is
the merge of the defaults with the instance `model_params` — for every key in
both, the `model_params` value overrides, and every key present in only one
dictionary is kept — except that when no validation period is given the key
`early_stopping_rounds` is removed from the merged dictionary. -/
theorem C5_params_passed_to_training {α : Type} (defaults mp : String → Option α)
    (k : String) :
    (fitAssemble defaults mp true).params k = mergeDicts defaults mp k ∧
    (fitAssemble defaults mp false).params k =
      (if k = "early_stopping_rounds" then none else mergeDicts defaults mp k) := by
  refine ⟨rfl, ?_⟩
  simp only [fitAssemble]
  by_cases hk : k = "early_stopping_rounds"
  · subst hk
    cases hm : mergeDicts defaults mp "early_stopping_rounds" with
    | none => simp [hm, eraseKey]
    | some v => simp [hm, eraseKey]
  · cases hm : mergeDicts defaults mp "early_stopping_rounds" with
    | none => simp [hm, eraseKey, hk]
    | some v => simp [hm, eraseKey, hk]

/-- Claim C10: when no validation period is given, no validation set is passed
and `early_stopping_rounds` is removed from the parameters before training;
when a validation period is given, the validation set is passed and
`early_stopping_rounds` is kept as in the merged dictionary — so training is
never configured with early stopping in the absence of a validation set. -/
theorem C10_early_stopping_requires_validation {α : Type}
    (defaults mp : String → Option α) :
    (fitAssemble defaults mp false).valid_sets_passed = false ∧
    (fitAssemble defaults mp false).params "early_stopping_rounds" = none ∧
    (fitAssemble defaults mp true).valid_sets_passed = true ∧
    (fitAssemble defaults mp true).params "early_stopping_rounds" =
      mergeDicts defaults mp "early_stopping_rounds" := by
  refine ⟨rfl, ?_, rfl, rfl⟩
  simp only [fitAssemble]
  cases hm : mergeDicts defaults mp "early_stopping_rounds" with
  | none => simp [hm, eraseKey]
  | some v => simp [hm, eraseKey]

/-- Claim C6: `_cast_dataframe` builds the Dataset from exactly the columns in
`self.input_features` (in order, with their dataframe values), attaches a
weight vector if and only if the dataframe has a `weight` column, and attaches
a label vector if and only if the dataframe has a column named after the
target. -/
theorem C6_cast_dataframe (input_features : List String) (target : String)
    (df : PandasDF) (cats : List String) :
    ((castDataframe input_features target df cats).data.map Prod.fst = input_features) ∧
    (∀ p ∈ (castDataframe input_features target df cats).data, p.2 = df.colVal p.1) ∧
    ((castDataframe input_features target df cats).weight.isSome ↔ "weight" ∈ df.cols) ∧
    ((castDataframe input_features target df cats).weight =
      (if "weight" ∈ df.cols then some (df.colVal "weight") else none)) ∧
    ((castDataframe input_features target df cats).label.isSome ↔ target ∈ df.cols) ∧
    ((castDataframe input_features target df cats).label =
      (if target ∈ df.cols then some (df.colVal target) else none)) ∧
    ((castDataframe input_features target df cats).categorical_feature = cats) := by
  refine ⟨?_, ?_, ?_, rfl, ?_, rfl, rfl⟩
  · simp only [castDataframe, List.map_map]
    exact List.map_id' input_features
  · intro p hp
    simp only [castDataframe, List.mem_map] at hp
    obtain ⟨c, _, rfl⟩ := hp
    rfl
  · simp only [castDataframe]
    by_cases h : "weight" ∈ df.cols <;> simp [h]
  · simp only [castDataframe]
    by_cases h : target ∈ df.cols <;> simp [h]

/-- Claim C7: the code contradicts the `TrendEstimator` docstring, which
promises backends `prophet` and `stl`.  At the failing input
`backend = "stl"`, `predict` never assigns `trend_dataframe` (UnboundLocalError,
modelled as `none`) and `fit` trains a Prophet model anyway; only
`backend = "prophet"` yields a trend dataframe. -/
theorem C7_stl_backend_broken :
    trendEstimatorPredict "stl" (fun _ => 0) [0] = none ∧
    trendEstimatorFitLibraryUsed "stl" = "prophet" ∧
    (trendEstimatorPredict "prophet" (fun _ => 0) [0]).isSome = true := by
  refine ⟨?_, rfl, rfl⟩
  simp [trendEstimatorPredict]

/-! ## Claim theorems: the iterative prediction loop -/

/-- Claim C2: at every step `i` of the iterative prediction loop, when lag
features are enabled, the feature `lag_L` supplied to the model equals the
`L`-th most recent element of the history buffer formed by concatenating the
training targets, the validation targets (empty when no validation period),
and the values appended during the previous `i` steps.  Side conditions make
the feature name well defined: `L ≥ 1`, distinct configured lags and window
features yield distinct feature names, and `lag_L` is among the input
features handed to the booster. -/
theorem C2_lag_feature_value (c : PredictCtx) (n : Nat) (outs : List StepOut)
    (yfin : List ℚ) (L : Nat) (i : Nat)
    (hloop : predictLoop c 0 n (initialHistory c.f) = some (outs, yfin))
    (hlag : "lag" ∈ c.f.features) (hL : L ∈ c.f.lags) (hL1 : 1 ≤ L)
    (huniq : ∀ L2 ∈ c.f.lags, lagName L2 = lagName L → L2 = L)
    (hfresh : ∀ wf ∈ c.f.window_functions, ∀ w ∈ c.f.window_sizes,
      rwName wf w ≠ lagName L)
    (hin : lagName L ∈ c.f.input_features)
    (hi : i < outs.length) :
    restrictRow c.f.input_features (outs.getD i defaultStepOut).row (lagName L)
      = nthMostRecent (initialHistory c.f ++ (outs.take i).map StepOut.appended) L := by
  obtain ⟨hlen, hyfin, hsteps⟩ :=
    predictLoop_spec c n 0 (initialHistory c.f) outs yfin hloop
  have hstep := hsteps i hi
  rw [Nat.zero_add] at hstep
  obtain ⟨hbr, hraw, happ, hy2⟩ := predictStep_inv c i _ outs[i] _ hstep
  obtain ⟨r1, hr1, hrow⟩ := buildRow_inv c i _ outs[i].row hbr
  rw [if_pos hlag] at hr1
  have hval := applyLags_value c.f.lags
    (initialHistory c.f ++ (outs.take i).map StepOut.appended) L
    (c.baseRows i) r1 hr1 hL huniq
  have hnth := pyGet_neg_some _ L (r1 (lagName L)) hL1 hval
  have hpr : outs[i].row (lagName L) = r1 (lagName L) := by
    rw [hrow]
    by_cases hrw : "rw" ∈ c.f.features
    · rw [if_pos hrw]
      exact applyRW_preserve c.npFun c.f.window_functions c.f.window_sizes _ r1
        (lagName L) hfresh
    · rw [if_neg hrw]
  rw [getD_eq_getElem outs i defaultStepOut hi]
  simp only [restrictRow]
  rw [if_pos hin, hpr]
  exact hnth

/-- Claim C3: at every step `i` of the iterative prediction loop, when
rolling-window features are enabled, the feature named `f_w` supplied to the
model equals the window function `f` applied to the last `w` elements of the
current history buffer (training targets, validation targets, and previously
appended values).  Side conditions: `w ≥ 1`, distinct configured window
function/size pairs yield distinct feature names, and `f_w` is among the
input features handed to the booster. -/
theorem C3_rw_feature_value (c : PredictCtx) (n : Nat) (outs : List StepOut)
    (yfin : List ℚ) (wf : String) (w : Nat) (i : Nat)
    (hloop : predictLoop c 0 n (initialHistory c.f) = some (outs, yfin))
    (hrw : "rw" ∈ c.f.features) (hwf : wf ∈ c.f.window_functions)
    (hw : w ∈ c.f.window_sizes) (hw1 : 1 ≤ w)
    (huniq : ∀ wf2 ∈ c.f.window_functions, ∀ w2 ∈ c.f.window_sizes,
      rwName wf2 w2 = rwName wf w → wf2 = wf ∧ w2 = w)
    (hin : rwName wf w ∈ c.f.input_features)
    (hi : i < outs.length) :
    restrictRow c.f.input_features (outs.getD i defaultStepOut).row (rwName wf w)
      = c.npFun wf
          (lastN (initialHistory c.f ++ (outs.take i).map StepOut.appended) w) := by
  obtain ⟨hlen, hyfin, hsteps⟩ :=
    predictLoop_spec c n 0 (initialHistory c.f) outs yfin hloop
  have hstep := hsteps i hi
  rw [Nat.zero_add] at hstep
  obtain ⟨hbr, hraw, happ, hy2⟩ := predictStep_inv c i _ outs[i] _ hstep
  obtain ⟨r1, hr1, hrow⟩ := buildRow_inv c i _ outs[i].row hbr
  rw [if_pos hrw] at hrow
  have hval := applyRW_value c.npFun c.f.window_functions c.f.window_sizes
    (initialHistory c.f ++ (outs.take i).map StepOut.appended) wf w r1 hwf hw huniq
  rw [getD_eq_getElem outs i defaultStepOut hi]
  simp only [restrictRow]
  rw [if_pos hin, hrow, hval,
    pySliceLast_eq_lastN (initialHistory c.f ++ (outs.take i).map StepOut.appended) w hw1]

/-- Claim C4: every iteration of the prediction loop appends exactly one value
to the history buffer — after `steps` iterations the buffer is the initial
buffer extended by one value per step — and the value appended at step `i` is
that step's model output after response rescaling (when enabled) and after
adding the step's trend value (when detrending is enabled), i.e.
`scaleAndDetrend` of the raw output that is stored in the returned prediction
list. -/
theorem C4_loop_appends_postprocessed (c : PredictCtx) (idx0 steps : Nat)
    (y0 : List ℚ) (outs : List StepOut) (yfin : List ℚ)
    (hloop : predictLoop c idx0 steps y0 = some (outs, yfin)) :
    outs.length = steps ∧
    yfin.length = y0.length + steps ∧
    yfin = y0 ++ outs.map StepOut.appended ∧
    ∀ i, i < outs.length →
      (outs.getD i defaultStepOut).appended
        = scaleAndDetrend c.f (outs.getD i defaultStepOut).raw (c.trend (idx0 + i)) := by
  obtain ⟨hlen, hyfin, hsteps⟩ := predictLoop_spec c steps idx0 y0 outs yfin hloop
  refine ⟨hlen, ?_, hyfin, ?_⟩
  · rw [hyfin]
    simp [hlen]
  · intro i hi
    have hstep := hsteps i hi
    obtain ⟨_, _, happ, _⟩ := predictStep_inv c (idx0 + i) _ outs[i] _ hstep
    rw [getD_eq_getElem outs i defaultStepOut hi]
    exact happ

/-- Claim C9: when every configured lag `L` satisfies `1 ≤ L ≤` length of the
initial history buffer (training plus validation targets), and likewise every
configured window size, then every buffer access `y[-lag]` and every slice
`y[-window:]` performed at every step is within bounds (the slice holds
exactly `window` elements), and the loop never faults. -/
theorem C9_loop_never_faults (c : PredictCtx) (n : Nat)
    (hlags : ∀ L ∈ c.f.lags, 1 ≤ L ∧ L ≤ (initialHistory c.f).length)
    (hws : ∀ w ∈ c.f.window_sizes, 1 ≤ w ∧ w ≤ (initialHistory c.f).length) :
    ∃ outs yfin, predictLoop c 0 n (initialHistory c.f) = some (outs, yfin) ∧
      ∀ i, i ≤ outs.length →
        (∀ L ∈ c.f.lags,
          (pyGet (initialHistory c.f ++ (outs.take i).map StepOut.appended)
            (-(L : Int))).isSome = true) ∧
        (∀ w ∈ c.f.window_sizes,
          (pySliceLast (initialHistory c.f ++ (outs.take i).map StepOut.appended)
            w).length = w) := by
  have htot := predictLoop_total c n 0 (initialHistory c.f) hlags
  rw [Option.isSome_iff_exists] at htot
  obtain ⟨⟨outs, yfin⟩, hloop⟩ := htot
  refine ⟨outs, yfin, hloop, ?_⟩
  intro i hi
  have hblen : (initialHistory c.f ++ (outs.take i).map StepOut.appended).length
      = (initialHistory c.f).length + i := by
    simp only [List.length_append, List.length_map, List.length_take]
    omega
  constructor
  · intro L hL
    apply pyGet_neg_isSome _ L (hlags L hL).1
    rw [hblen]
    have := (hlags L hL).2
    omega
  · intro w hw
    rw [pySliceLast_eq_lastN _ w (hws w hw).1]
    apply lastN_length
    rw [hblen]
    have := (hws w hw).2
    omega

/-- Claim C1: for every call to `predict` with detrending enabled (and no
`zero_response` masking, which claim C8 covers), the returned values equal the
boosted model's raw output — after response rescaling when enabled — plus the
predicted trend for the same row, with the trend added exactly once; and in
the autoregressive path the raw outputs returned by `_predict` are exactly the
booster's outputs, recorded before any scaling or trend was applied. -/
theorem C1_trend_added_once (c : PredictCtx) (n : Nat) (raws res : List ℚ)
    (hdet : c.f.detrend = true)
    (hraw : rawPredictions c n = some raws)
    (hres : predictMethod c n none = some res) :
    res.length = raws.length ∧
    (∀ i, i < res.length →
      res.getD i 0 = (if c.f.response_scaling
                      then raws.getD i 0 * c.f.y_std + c.f.y_mean
                      else raws.getD i 0) + c.trend i) ∧
    (("lag" ∈ c.f.features ∨ "rw" ∈ c.f.features) →
      ∃ outs yfin, predictLoop c 0 n (initialHistory c.f) = some (outs, yfin) ∧
        raws = outs.map StepOut.raw ∧
        ∀ i, i < outs.length →
          (outs.getD i defaultStepOut).raw
            = c.model (restrictRow c.f.input_features (outs.getD i defaultStepOut).row)) := by
  simp only [predictMethod, hraw, hdet, if_true, Option.some_inj] at hres
  refine ⟨?_, ?_, ?_⟩
  · cases hsc : c.f.response_scaling with
    | false =>
        rw [hsc] at hres
        simp only [Bool.false_eq_true, if_false] at hres
        rw [← hres, length_addTrendFrom]
    | true =>
        rw [hsc] at hres
        simp only [if_true] at hres
        rw [← hres, length_addTrendFrom, List.length_map]
  · intro i hi
    cases hsc : c.f.response_scaling with
    | false =>
        rw [hsc] at hres
        simp only [Bool.false_eq_true, if_false] at hres ⊢
        rw [← hres] at hi ⊢
        rw [length_addTrendFrom] at hi
        rw [getD_addTrendFrom c.trend raws 0 i hi, Nat.zero_add]
    | true =>
        rw [hsc] at hres
        simp only [if_true] at hres ⊢
        rw [← hres] at hi ⊢
        rw [length_addTrendFrom, List.length_map] at hi
        rw [getD_addTrendFrom c.trend _ 0 i (by rw [List.length_map]; exact hi),
          Nat.zero_add, getD_map_scale c.f.y_std c.f.y_mean raws i hi]
  · intro hAR
    rw [rawPredictions, if_pos hAR] at hraw
    cases hloop2 : predictLoop c 0 n (initialHistory c.f) with
    | none => rw [hloop2] at hraw; exact Option.noConfusion hraw
    | some oyf =>
        obtain ⟨outs, yfin⟩ := oyf
        rw [hloop2] at hraw
        simp only [Option.some_inj] at hraw
        obtain ⟨hlen, hyfin, hsteps⟩ :=
          predictLoop_spec c n 0 (initialHistory c.f) outs yfin hloop2
        refine ⟨outs, yfin, rfl, hraw.symm, ?_⟩
        intro i hi
        have hstep := hsteps i hi
        obtain ⟨_, hraw2, _, _⟩ := predictStep_inv c (0 + i) _ outs[i] _ hstep
        rw [getD_eq_getElem outs i defaultStepOut hi]
        exact hraw2

/-- Claim C8: when the prepared features contain a `zero_response` column, the
returned prediction is exactly 0 at every row where the mask holds and equals
the unmasked prediction (same model outputs, trend and scaling) at every
other row. -/
theorem C8_zero_response_masking (c : PredictCtx) (n : Nat) (z : Nat → Bool)
    (res res0 : List ℚ)
    (hres : predictMethod c n (some z) = some res)
    (hres0 : predictMethod c n none = some res0) :
    res.length = res0.length ∧
    ∀ i, i < res.length →
      res.getD i 0 = (if z i then 0 else res0.getD i 0) := by
  cases hraw : rawPredictions c n with
  | none =>
      rw [predictMethod, hraw] at hres
      exact Option.noConfusion hres
  | some p0 =>
      simp only [predictMethod, hraw, Option.some_inj] at hres hres0
      rw [← hres, ← hres0]
      constructor
      · exact length_zeroMaskFrom z 0 _
      · intro i hi
        rw [length_zeroMaskFrom] at hi
        rw [getD_zeroMaskFrom z _ 0 i hi, Nat.zero_add]

/-! ## Witnesses: the claim theorems applied at concrete inputs -/

/-- Witness for C2: in the concrete one-lag run over training targets
`[3, 5]`, the `lag_1` feature supplied at step 0 equals the most recent
element of the initial buffer. -/
theorem C2_witness :
    restrictRow wLagCtx.f.input_features
        (wLagOuts.getD 0 defaultStepOut).row (lagName 1)
      = nthMostRecent
          (initialHistory wLagCtx.f ++ (wLagOuts.take 0).map StepOut.appended) 1 :=
  C2_lag_feature_value wLagCtx 1 wLagOuts wLagYfin 1 0 rfl (by decide) (by decide)
    (by decide) (by decide) (by decide) (by decide) (by decide)

/-- Witness for C3: in the concrete rolling-window run, the `mean_2` feature
supplied at step 1 equals the window function applied to the last two elements
of the buffer extended by step 0's appended value. -/
theorem C3_witness :
    restrictRow wRwCtx.f.input_features
        (wRwOuts.getD 1 defaultStepOut).row (rwName "mean" 2)
      = wRwCtx.npFun "mean"
          (lastN (initialHistory wRwCtx.f ++ (wRwOuts.take 1).map StepOut.appended) 2) :=
  C3_rw_feature_value wRwCtx 2 wRwOuts wRwYfin "mean" 2 1 rfl (by decide) (by decide)
    (by decide) (by decide) (by decide) (by decide) (by decide)

/-- Witness for C4: the concrete detrended, scaled two-step run appends one
post-processed value per step. -/
theorem C4_witness :
    wDetOuts.length = 2 ∧
    wDetYfin.length = (initialHistory wDetF).length + 2 ∧
    wDetYfin = initialHistory wDetF ++ wDetOuts.map StepOut.appended ∧
    ∀ i, i < wDetOuts.length →
      (wDetOuts.getD i defaultStepOut).appended
        = scaleAndDetrend wDetCtx.f (wDetOuts.getD i defaultStepOut).raw
            (wDetCtx.trend (0 + i)) :=
  C4_loop_appends_postprocessed wDetCtx 0 2 (initialHistory wDetF) wDetOuts wDetYfin rfl

/-- Witness for C9: the concrete one-lag run stays in bounds and completes. -/
theorem C9_witness :
    ∃ outs yfin, predictLoop wLagCtx 0 1 (initialHistory wLagCtx.f) = some (outs, yfin) ∧
      ∀ i, i ≤ outs.length →
        (∀ L ∈ wLagCtx.f.lags,
          (pyGet (initialHistory wLagCtx.f ++ (outs.take i).map StepOut.appended)
            (-(L : Int))).isSome = true) ∧
        (∀ w ∈ wLagCtx.f.window_sizes,
          (pySliceLast (initialHistory wLagCtx.f ++ (outs.take i).map StepOut.appended)
            w).length = w) :=
  C9_loop_never_faults wLagCtx 1 (by decide) (by decide)

/-- Witness for C1: on the concrete detrended, scaled run the returned values
are the raw outputs rescaled and shifted by the trend. -/
theorem C1_witness :
    wDetRes.length = wDetRaws.length ∧
    (∀ i, i < wDetRes.length →
      wDetRes.getD i 0 = (if wDetCtx.f.response_scaling
                      then wDetRaws.getD i 0 * wDetCtx.f.y_std + wDetCtx.f.y_mean
                      else wDetRaws.getD i 0) + wDetCtx.trend i) ∧
    (("lag" ∈ wDetCtx.f.features ∨ "rw" ∈ wDetCtx.f.features) →
      ∃ outs yfin, predictLoop wDetCtx 0 2 (initialHistory wDetCtx.f) = some (outs, yfin) ∧
        wDetRaws = outs.map StepOut.raw ∧
        ∀ i, i < outs.length →
          (outs.getD i defaultStepOut).raw
            = wDetCtx.model
                (restrictRow wDetCtx.f.input_features (outs.getD i defaultStepOut).row)) :=
  C1_trend_added_once wDetCtx 2 wDetRaws wDetRes rfl rfl rfl

/-- Witness for C8: on the concrete run, masking row 0 zeroes exactly that row
and leaves row 1 unchanged. -/
theorem C8_witness :
    wMaskRes.length = wDetRes.length ∧
    ∀ i, i < wMaskRes.length →
      wMaskRes.getD i 0 = (if wMask i then 0 else wDetRes.getD i 0) :=
  C8_zero_response_masking wDetCtx 2 wMask wMaskRes wDetRes rfl rfl

end TSForest
